import Mathlib

/-!
Verification development for the text-transformation toolkit
(source file: src/text_data.py).

The Python source is shallowly embedded into Lean:

* a dataframe is a list of named columns of cells (strings, nulls,
  token lists after the cleaning stage, and numbers);
* the regex cleaning `replace_all('[^\s\w\d%]', '')` + `to_lowercase` +
  `split(by=" ")` chain is embedded character-by-character;
* the Porter stemmer is an external black box (nltk), so it is a
  function parameter `stem : String -> String`; the `calls` field of
  `StemState` records every argument the external stemmer is invoked
  with, which makes the memoization contract observable;
* the scikit-learn CountVectorizer/TfidfVectorizer is external as well;
  it is embedded following its documented fit_transform behaviour
  (parameter validation, lowercasing tokenization on word runs of
  length >= 2, stop-word removal, sorted vocabulary, document-frequency
  pruning with the errors sklearn raises, per-document count rows).
  The tf-idf weighting and row normalisation internals are abstracted
  as parameters `idf` and `tfnorm` (the spec treats the vectorizer's
  scoring internals as out of scope);
* the nltk English stop-word list (module-level `stop`) is a parameter.

Python dicts are embedded as insertion-ordered association lists, and
Python exceptions as `Except String`.
-/

set_option autoImplicit false

unseal Rat.mul Rat.inv

namespace TextData

/-- Decidable equality of results, used to evaluate runs on concrete
inputs. -/
instance exceptDecEq {ε α : Type} [DecidableEq ε] [DecidableEq α] :
    DecidableEq (Except ε α) := fun a b =>
  match a, b with
  | .error e, .error f =>
    if h : e = f then .isTrue (by rw [h]) else .isFalse (fun he => h (by injection he))
  | .error _, .ok _ => .isFalse (fun he => Except.noConfusion he)
  | .ok _, .error _ => .isFalse (fun he => Except.noConfusion he)
  | .ok x, .ok y =>
    if h : x = y then .isTrue (by rw [h]) else .isFalse (fun he => h (by injection he))

/-- Lexicographic comparison of character lists, the order of strings. -/
def leChars : List Char → List Char → Bool
  | [], _ => true
  | _ :: _, [] => false
  | a :: as, b :: bs => if a < b then true else if b < a then false else leChars as bs

/-- Lexicographic order on strings (the order Python's sorted and the
sklearn vocabulary sort use on plain strings). -/
def leString (a b : String) : Bool := leChars a.data b.data

/-- Insertion step of the sort. -/
def insertSorted (x : String) : List String → List String
  | [] => [x]
  | y :: ys => if leString x y then x :: y :: ys else y :: insertSorted x ys

/-- Sort a list of strings lexicographically (insertion sort). -/
def sortStrings : List String → List String
  | [] => []
  | x :: xs => insertSorted x (sortStrings xs)

/-- A dataframe cell: a missing value, a string, a token list (the state
of a text column after the cleaning stage), or a number. -/
inductive Cell where
  | null : Cell
  | str : String → Cell
  | toks : List String → Cell
  | num : Rat → Cell
  deriving DecidableEq

/-- A dataframe: named columns of cells, in order. -/
structure DataFrame where
  cols : List (String × List Cell)
  deriving DecidableEq

/-- Characters kept by the cleaning regex replace_all('[^\s\w\d%]', ''):
whitespace, word characters (alphanumeric or underscore, which also
covers the digit class), and the percent sign. -/
def keepChar (c : Char) : Bool :=
  c.isWhitespace || c.isAlphanum || c == '_' || c == '%'

/-- Cleaning of a text cell at the character level: drop the characters
the regex removes, then lowercase (source line 60, first two steps). -/
def cleanChars (cs : List Char) : List Char :=
  (cs.filter keepChar).map Char.toLower

/-- Literal split on the single character ' ', exactly as polars
str.split(by=" "): empty tokens from consecutive, leading or trailing
separators are kept, and the result is never the empty list. -/
def splitSpace : List Char → List (List Char)
  | [] => [[]]
  | c :: cs =>
    if c == ' ' then [] :: splitSpace cs
    else
      match splitSpace cs with
      | [] => [[c]]
      | t :: ts => (c :: t) :: ts

/-- The whole per-cell cleaning chain of source line 60:
replace_all('[^\s\w\d%]', '') then to_lowercase then split(by=" "). -/
def tokenizeStr (s : String) : List String :=
  (splitSpace (cleanChars s.toList)).map (fun cs => String.mk cs)

/-- Cleaning of one cell of a text column; polars string operations map
a null cell to null and fail on non-string columns. -/
def cleanCell : Cell → Except String Cell
  | .str s => .ok (.toks (tokenizeStr s))
  | .null => .ok .null
  | _ => .error "string operation on a non-string column"

/-- The state of the stemming stage: the memo dict of source line 66
(an insertion-ordered association list from raw token to stem) together
with the list of arguments the external stemming function has been
invoked with, in call order. -/
structure StemState where
  memo : List (String × String)
  calls : List String
  deriving DecidableEq

/-- Source lines 81-83: a memo lookup; on a miss the external stemmer is
called once and the result is inserted at the end of the dict. -/
def stemToken (stem : String → String) (st : StemState) (w : String) :
    StemState × String :=
  match st.memo.lookup w with
  | some v => (st, v)
  | none =>
    let v := stem w
    (⟨st.memo ++ [(w, v)], st.calls ++ [w]⟩, v)

/-- Source lines 79-83: stem every token of a cell in order, threading
the memo state. -/
def stemTokens (stem : String → String) (st : StemState) :
    List String → StemState × List String
  | [] => (st, [])
  | w :: ws =>
    let p := stemToken stem st w
    let q := stemTokens stem p.1 ws
    (q.1, p.2 :: q.2)

/-- Source lines 77-87, one row: the Python test `if tokens:` is false
both for None and for an empty list, and in either of those cases the
literal "Unknown" is emitted without touching the state; otherwise the
stemmed tokens are rejoined with single spaces. -/
def processCell (stem : String → String) (st : StemState) :
    Option (List String) → StemState × String
  | some ts =>
    if ts.isEmpty then (st, "Unknown")
    else
      let p := stemTokens stem st ts
      (p.1, String.intercalate " " p.2)
  | none => (st, "Unknown")

/-- Source lines 75-87: produce the per-row normalized document list of
one text column, threading the memo state through the rows in order. -/
def processColumn (stem : String → String) (st : StemState) :
    List (Option (List String)) → StemState × List String
  | [] => (st, [])
  | cell :: rest =>
    let p := processCell stem st cell
    let q := processColumn stem p.1 rest
    (q.1, p.2 :: q.2)

/-- One step of the _reverse_memo loop (source lines 20-24): append the
raw key to the list of its stem if the stem is already a key of the
output dict, otherwise add a new singleton entry at the end. -/
def rmAdd (out : List (String × List String)) (stemv rawk : String) :
    List (String × List String) :=
  match out with
  | [] => [(stemv, [rawk])]
  | (s, l) :: rest =>
    if s = stemv then (s, l ++ [rawk]) :: rest
    else (s, l) :: rmAdd rest stemv rawk

/-- The function _reverse_memo of source lines 12-26: invert the stem
memo into a mapping from stem to the raw tokens that produced it. -/
def reverseMemo (memo : List (String × String)) : List (String × List String) :=
  memo.foldl (fun out kv => rmAdd out kv.2 kv.1) []

/-- The two vectorizer flavours of source lines 68-71. -/
inductive VectorizerKind where
  | count : VectorizerKind
  | tfidf : VectorizerKind
  deriving DecidableEq

/-- The vectorizer object of source lines 68-71: its configuration plus
the fitted vocabulary state left behind by the last fit_transform call. -/
structure Vectorizer where
  kind : VectorizerKind
  max_df : Rat
  min_df : Rat
  stop_words : List String
  fitted : Option (List String)
  deriving DecidableEq

/-- Construction of a vectorizer (source lines 69 and 71): a freshly
constructed object has no fitted vocabulary. -/
def mkVectorizer (kind : VectorizerKind) (max_df min_df : Rat)
    (stop_words : List String) : Vectorizer :=
  ⟨kind, max_df, min_df, stop_words, none⟩

/-- The dispatch of source line 68: the string "tfidf" selects the
tf-idf vectorizer and every other string falls through to the count
vectorizer. -/
def chooseKind (vectorize_method : String) : VectorizerKind :=
  if vectorize_method = "tfidf" then .tfidf else .count

/-- A word character for the sklearn default token pattern. -/
def isWordChar (c : Char) : Bool :=
  c.isAlphanum || c == '_'

/-- Maximal runs of word characters of a character list (the runs
between non-word characters, empty runs included). -/
def wordRuns : List Char → List (List Char)
  | [] => [[]]
  | c :: cs =>
    if isWordChar c then
      match wordRuns cs with
      | [] => [[c]]
      | t :: ts => (c :: t) :: ts
    else [] :: wordRuns cs

/-- The sklearn document preprocessing and tokenization: lowercase, then
extract the maximal word-character runs of length at least two (the
default token pattern). -/
def sklearnTokenize (doc : String) : List String :=
  ((wordRuns (doc.toList.map Char.toLower)).filter (fun r => decide (2 ≤ r.length))).map
    (fun cs => String.mk cs)

/-- Document count of a term: in how many tokenized documents it occurs. -/
def docFreq (docTokens : List (List String)) (t : String) : Nat :=
  (docTokens.filter (fun ts => decide (t ∈ ts))).length

/-- The candidate vocabulary sklearn builds before document-frequency
pruning: every token of every document that is not a stop word, without
duplicates, sorted. -/
def candidateVocab (stop_words : List String) (docs : List String) : List String :=
  sortStrings ((docs.map sklearnTokenize).flatten.filter (fun w => decide (w ∉ stop_words))).dedup

/-- The result of one fit_transform call: the dense feature matrix (one
row per document) and the fitted vocabulary in order. -/
structure FitOutput where
  matrix : List (List Rat)
  features : List String
  deriving DecidableEq

/-- Model of the external sklearn fit_transform call of source line 90,
following its documented behaviour: validate that the frequency
thresholds lie in the closed unit interval, tokenize, reject an empty
candidate vocabulary, reject max_df below min_df, prune terms whose
document count lies outside the closed band, reject an emptied
vocabulary, and emit one row of term scores per document.  Count scoring
is the per-document term count; tf-idf scoring weights each count with
the abstract inverse-document-frequency factor idf and normalizes the
row with the abstract tfnorm (the scoring internals are external to this
repository).  The returned object carries the new fitted vocabulary; the
fit is from scratch and ignores any previously fitted state. -/
def fitTransform (idf : Nat → Nat → Rat) (tfnorm : List Rat → List Rat)
    (v : Vectorizer) (docs : List String) : Except String (Vectorizer × FitOutput) :=
  if v.max_df < 0 ∨ 1 < v.max_df ∨ v.min_df < 0 ∨ 1 < v.min_df then
    .error "max_df and min_df must be in the range of 0 to 1"
  else
    let docTokens := docs.map sklearnTokenize
    let vocabAll := candidateVocab v.stop_words docs
    if vocabAll.isEmpty then
      .error "empty vocabulary; perhaps the documents only contain stop words"
    else
      let n : Rat := (docs.length : Rat)
      if v.max_df * n < v.min_df * n then
        .error "max_df corresponds to < documents than min_df"
      else
        let vocab := vocabAll.filter (fun t =>
          decide (v.min_df * n ≤ (docFreq docTokens t : Rat)) &&
          decide ((docFreq docTokens t : Rat) ≤ v.max_df * n))
        if vocab.isEmpty then
          .error "After pruning, no terms remain. Try a lower min_df or a higher max_df."
        else
          let matrix :=
            match v.kind with
            | .count => docTokens.map (fun ts => vocab.map (fun t => ((ts.count t : Nat) : Rat)))
            | .tfidf => docTokens.map (fun ts =>
                tfnorm (vocab.map (fun t =>
                  ((ts.count t : Nat) : Rat) * idf docs.length (docFreq docTokens t))))
          .ok ({ v with fitted := some vocab }, ⟨matrix, vocab⟩)

/-- The one-hot column naming of source lines 50-56: pandas get_dummies
joins the original column name and the category value with the
prefix_sep "::". -/
def oneHotName (col cat : String) : String :=
  col ++ "::" ++ cat

/-- The text-feature column naming of source line 91. -/
def textWordName (col term : String) : String :=
  col ++ "::word::" ++ term

/-- String payload of a cell, if any (pandas categories of an encoded
column are its distinct non-null values). -/
def cellStr : Cell → Option String
  | .str s => some s
  | _ => none

/-- The indicator columns pandas get_dummies produces for one encoded
column: one binary column per distinct non-null value, in sorted
category order, the first one dropped when drop_first is set; a null
cell belongs to no category. -/
def dummyCols (vals : List Cell) (c : String) (drop_first : Bool) :
    List (String × List Cell) :=
  let cats := sortStrings (vals.filterMap cellStr).dedup
  let cats := if drop_first then cats.drop 1 else cats
  cats.map (fun cat =>
    (oneHotName c cat, vals.map (fun v => Cell.num (if v = Cell.str cat then 1 else 0))))

/-- The pandas get_dummies call of source lines 49-56: a missing column
name raises; otherwise the encoded columns are removed and their
indicator columns are appended after the remaining columns. -/
def getDummies (df : DataFrame) (one_hot_cols : List String) (drop_first : Bool) :
    Except String DataFrame :=
  match one_hot_cols.find? (fun c => (df.cols.lookup c).isNone) with
  | some c => .error ("column not found: " ++ c)
  | none =>
    let kept := df.cols.filter (fun p => !(one_hot_cols.contains p.1))
    let dummies := one_hot_cols.flatMap
      (fun c => dummyCols ((df.cols.lookup c).getD []) c drop_first)
    .ok ⟨kept ++ dummies⟩

/-- Elementwise fallible map over the cells of a column, propagating
the first error. -/
def mapExcept (f : Cell → Except String Cell) : List Cell → Except String (List Cell)
  | [] => .ok []
  | x :: xs =>
    match f x with
    | .error e => .error e
    | .ok y =>
      match mapExcept f xs with
      | .error e => .error e
      | .ok ys => .ok (y :: ys)

/-- The value cleanCell yields on the cells it accepts, written as a
total function: strings are tokenized, nulls stay null. -/
def cleanCellTotal : Cell → Cell
  | .str s => .toks (tokenizeStr s)
  | c => c

/-- Replace one text column by its cleaned token-list version (one
entry of the with_columns list of source lines 58-62); a missing column
raises. -/
def cleanColumnIn (df : DataFrame) (t : String) : Except String DataFrame :=
  match df.cols.lookup t with
  | none => .error ("column not found: " ++ t)
  | some cells =>
    match mapExcept cleanCell cells with
    | .error e => .error e
    | .ok cleaned => .ok ⟨df.cols.map (fun p => if p.1 = t then (p.1, cleaned) else p)⟩

/-- The cleaning stage of source lines 58-62 over all text columns. -/
def cleanTextCols (df : DataFrame) : List String → Except String DataFrame
  | [] => .ok df
  | t :: ts =>
    match cleanColumnIn df t with
    | .error e => .error e
    | .ok df2 => cleanTextCols df2 ts

/-- The to_list view of a cleaned text column cell (source line 76):
after the cleaning stage a text column holds only token lists and
nulls. -/
def cellToTokens : Cell → Option (List String)
  | .toks ts => some ts
  | _ => none

/-- The dataframe built from the dense matrix on source line 95: one
named column per feature, column j holding row[j] of every matrix row. -/
def mkPiece (names : List String) (X : List (List Rat)) : DataFrame :=
  ⟨names.mapIdx (fun j nm => (nm, X.map (fun row => Cell.num (row.getD j 0))))⟩

/-- The drop_in_place of source line 93. -/
def dropColumn (df : DataFrame) (c : String) : DataFrame :=
  ⟨df.cols.eraseP (fun p => p.1 == c)⟩

/-- The per-text-column loop of source lines 74-95: read the cleaned
column (polars get_column raises on a missing name), stem it into the
per-row document list, fit_transform those documents reusing the one
vectorizer object, drop the text column, and append the new feature
piece.  The stem state is returned also on the error paths, which makes
the external stemming calls that happened before an exception
observable. -/
def processTextLoop (stem : String → String) (idf : Nat → Nat → Rat)
    (tfnorm : List Rat → List Rat) (vz : Vectorizer) (st : StemState)
    (df2 : DataFrame) (pieces : List DataFrame) :
    List String → StemState × Except String (DataFrame × List DataFrame)
  | [] => (st, .ok (df2, pieces))
  | c :: rest =>
    match df2.cols.lookup c with
    | none => (st, .error ("column not found: " ++ c))
    | some cells =>
      let p := processColumn stem st (cells.map cellToTokens)
      match fitTransform idf tfnorm vz p.2 with
      | .error e => (p.1, .error e)
      | .ok r =>
        processTextLoop stem idf tfnorm r.1 p.1 (dropColumn df2 c)
          (pieces ++ [mkPiece (r.2.features.map (fun x => textWordName c x)) r.2.matrix]) rest

/-- The function transform_text_data of source lines 28-98: one-hot
encode, clean the text columns, build the vectorizer once from the
method string, run the text-column loop from an empty memo, then
horizontally concatenate the mutated dataframe with the feature
pieces and return it with the reversed memo.  The final
pl.concat(how="horizontal") of source line 97 enforces unique column
names: polars raises a DuplicateError when the pieces carry two columns
with the same name, so the concatenation checks name distinctness
before producing the table. -/
def transform_text_data (stem : String → String) (idf : Nat → Nat → Rat)
    (tfnorm : List Rat → List Rat) (stop : List String)
    (df : DataFrame) (one_hot_cols text_cols : List String) (drop_first : Bool)
    (vectorize_method : String) (max_df min_df : Rat) :
    Except String (DataFrame × List (String × List String)) :=
  match getDummies df one_hot_cols drop_first with
  | .error e => .error e
  | .ok df1 =>
    match cleanTextCols df1 text_cols with
    | .error e => .error e
    | .ok df2 =>
      let vz := mkVectorizer (chooseKind vectorize_method) max_df min_df stop
      match processTextLoop stem idf tfnorm vz ⟨[], []⟩ df2 [] text_cols with
      | (st, .ok r) =>
        let allCols := r.1.cols ++ (r.2.map DataFrame.cols).flatten
        if (allCols.map Prod.fst).Nodup then .ok (⟨allCols⟩, reverseMemo st.memo)
        else .error "unable to hstack, column with name occurs more than once"
      | (_, .error e) => .error e

/-- Specification variant of the per-column loop, following the spec
words "each text column gets an independently fitted vectorizer": a
fresh vectorizer is constructed from the configuration for every text
column instead of reusing one object. -/
def processTextLoopFresh (stem : String → String) (idf : Nat → Nat → Rat)
    (tfnorm : List Rat → List Rat) (kind : VectorizerKind) (max_df min_df : Rat)
    (stop : List String) (st : StemState) (df2 : DataFrame) (pieces : List DataFrame) :
    List String → StemState × Except String (DataFrame × List DataFrame)
  | [] => (st, .ok (df2, pieces))
  | c :: rest =>
    match df2.cols.lookup c with
    | none => (st, .error ("column not found: " ++ c))
    | some cells =>
      let p := processColumn stem st (cells.map cellToTokens)
      match fitTransform idf tfnorm (mkVectorizer kind max_df min_df stop) p.2 with
      | .error e => (p.1, .error e)
      | .ok r =>
        processTextLoopFresh stem idf tfnorm kind max_df min_df stop p.1 (dropColumn df2 c)
          (pieces ++ [mkPiece (r.2.features.map (fun x => textWordName c x)) r.2.matrix]) rest

/-- Specification variant of transform_text_data that gives every text
column a freshly constructed, independently fitted vectorizer; the
final concatenation enforces unique column names exactly as in
transform_text_data. -/
def transform_text_data_fresh (stem : String → String) (idf : Nat → Nat → Rat)
    (tfnorm : List Rat → List Rat) (stop : List String)
    (df : DataFrame) (one_hot_cols text_cols : List String) (drop_first : Bool)
    (vectorize_method : String) (max_df min_df : Rat) :
    Except String (DataFrame × List (String × List String)) :=
  match getDummies df one_hot_cols drop_first with
  | .error e => .error e
  | .ok df1 =>
    match cleanTextCols df1 text_cols with
    | .error e => .error e
    | .ok df2 =>
      match processTextLoopFresh stem idf tfnorm (chooseKind vectorize_method) max_df min_df
          stop ⟨[], []⟩ df2 [] text_cols with
      | (st, .ok r) =>
        let allCols := r.1.cols ++ (r.2.map DataFrame.cols).flatten
        if (allCols.map Prod.fst).Nodup then .ok (⟨allCols⟩, reverseMemo st.memo)
        else .error "unable to hstack, column with name occurs more than once"
      | (_, .error e) => .error e

/-- The per-row document a run emits for a cell, written directly: the
common stem of every occurrence for a non-empty token list, the literal
"Unknown" for a null or empty one. -/
def pyDoc (stem : String → String) : Option (List String) → String
  | some (w :: ws) => String.intercalate " " ((w :: ws).map stem)
  | _ => "Unknown"

/-- Invariant of the stemming state: the memo holds exactly the pairs
(w, stem w) for the raw tokens w the external stemmer has been called
with, and no token has been passed to the stemmer twice. -/
def StemInv (stem : String → String) (st : StemState) : Prop :=
  st.memo = st.calls.map (fun w => (w, stem w)) ∧ st.calls.Nodup

/-- Derivation of one dataframe from another: every column of the
second is a pointwise (hence row-order preserving) image of some
column of the first. -/
def DerivedFrom (base out : DataFrame) : Prop :=
  ∀ p ∈ out.cols, ∃ q ∈ base.cols, ∃ f : Cell → Cell, p.2 = q.2.map f

/-! Lemmas about the stemming stage. -/

theorem processCell_none (stem : String → String) (st : StemState) :
    processCell stem st none = (st, "Unknown") := rfl

theorem processColumn_nil (stem : String → String) (st : StemState) :
    processColumn stem st [] = (st, []) := rfl

theorem processColumn_cons (stem : String → String) (st : StemState)
    (cell : Option (List String)) (rest : List (Option (List String))) :
    processColumn stem st (cell :: rest) =
      ((processColumn stem (processCell stem st cell).1 rest).1,
       (processCell stem st cell).2 ::
         (processColumn stem (processCell stem st cell).1 rest).2) := rfl

theorem lookup_map_stem (stem : String → String) (calls : List String) (w : String) :
    (calls.map (fun u => (u, stem u))).lookup w =
      if w ∈ calls then some (stem w) else none := by
  induction calls with
  | nil => rfl
  | cons u us ih =>
    by_cases h : w = u
    · subst h
      simp [List.lookup]
    · simp only [List.map_cons, List.lookup, show (w == u) = false from by simpa using h, ih,
        List.mem_cons]
      simp [h]

theorem stemToken_spec (stem : String → String) (st : StemState) (w : String)
    (h : StemInv stem st) :
    (stemToken stem st w).2 = stem w ∧ StemInv stem (stemToken stem st w).1 ∧
      st.calls ⊆ (stemToken stem st w).1.calls ∧ w ∈ (stemToken stem st w).1.calls := by
  obtain ⟨hm, hnd⟩ := h
  unfold stemToken
  rw [hm, lookup_map_stem]
  by_cases hw : w ∈ st.calls
  · rw [if_pos hw]
    exact ⟨rfl, ⟨hm, hnd⟩, fun x hx => hx, hw⟩
  · rw [if_neg hw]
    refine ⟨rfl, ⟨?_, ?_⟩, ?_, ?_⟩
    · show List.map (fun w => (w, stem w)) st.calls ++ [(w, stem w)] =
        List.map (fun w => (w, stem w)) (st.calls ++ [w])
      rw [List.map_append]
      rfl
    · show (st.calls ++ [w]).Nodup
      simp [List.nodup_append, hnd, hw]
    · exact fun x hx => List.mem_append_left _ hx
    · exact List.mem_append_right _ (by simp)

theorem stemTokens_spec (stem : String → String) (ts : List String) :
    ∀ st : StemState, StemInv stem st →
      (stemTokens stem st ts).2 = ts.map stem ∧ StemInv stem (stemTokens stem st ts).1 ∧
        st.calls ⊆ (stemTokens stem st ts).1.calls ∧
        ∀ w ∈ ts, w ∈ (stemTokens stem st ts).1.calls := by
  induction ts with
  | nil =>
    intro st h
    exact ⟨rfl, h, fun x hx => hx, by simp⟩
  | cons w ws ih =>
    intro st h
    obtain ⟨h1, h2, h3, h4⟩ := stemToken_spec stem st w h
    obtain ⟨g1, g2, g3, g4⟩ := ih (stemToken stem st w).1 h2
    refine ⟨?_, ?_, ?_, ?_⟩
    · show ((stemTokens stem (stemToken stem st w).1 ws).1,
          (stemToken stem st w).2 :: (stemTokens stem (stemToken stem st w).1 ws).2).2
          = (w :: ws).map stem
      simp [h1, g1]
    · exact g2
    · exact fun x hx => g3 (h3 hx)
    · intro x hx
      rcases List.mem_cons.mp hx with hx | hx
      · subst hx; exact g3 h4
      · exact g4 x hx

theorem processCell_spec (stem : String → String) (st : StemState)
    (cell : Option (List String)) (h : StemInv stem st) :
    (processCell stem st cell).2 = pyDoc stem cell ∧
      StemInv stem (processCell stem st cell).1 ∧
      st.calls ⊆ (processCell stem st cell).1.calls := by
  match cell with
  | none => exact ⟨rfl, h, fun x hx => hx⟩
  | some [] => exact ⟨rfl, h, fun x hx => hx⟩
  | some (w :: ws) =>
    obtain ⟨g1, g2, g3, _⟩ := stemTokens_spec stem (w :: ws) st h
    refine ⟨?_, g2, g3⟩
    show String.intercalate " " (stemTokens stem st (w :: ws)).2 = pyDoc stem (some (w :: ws))
    rw [g1]; rfl

theorem processColumn_spec (stem : String → String) (cells : List (Option (List String))) :
    ∀ st : StemState, StemInv stem st →
      (processColumn stem st cells).2 = cells.map (pyDoc stem) ∧
        StemInv stem (processColumn stem st cells).1 ∧
        st.calls ⊆ (processColumn stem st cells).1.calls := by
  induction cells with
  | nil => exact fun st h => ⟨rfl, h, fun x hx => hx⟩
  | cons cell rest ih =>
    intro st h
    obtain ⟨h1, h2, h3⟩ := processCell_spec stem st cell h
    obtain ⟨g1, g2, g3⟩ := ih (processCell stem st cell).1 h2
    rw [processColumn_cons]
    exact ⟨by simp [h1, g1], g2, fun x hx => g3 (h3 hx)⟩

theorem processColumn_length (stem : String → String) (cells : List (Option (List String))) :
    ∀ st : StemState, (processColumn stem st cells).2.length = cells.length := by
  induction cells with
  | nil => intro st; rfl
  | cons cell rest ih =>
    intro st
    rw [processColumn_cons]
    simp [ih]

theorem processTextLoop_inv (stem : String → String) (idf : Nat → Nat → Rat)
    (tfnorm : List Rat → List Rat) (cols : List String) :
    ∀ (vz : Vectorizer) (st : StemState) (df2 : DataFrame) (pieces : List DataFrame),
      StemInv stem st →
      StemInv stem (processTextLoop stem idf tfnorm vz st df2 pieces cols).1 := by
  induction cols with
  | nil => exact fun vz st df2 pieces h => h
  | cons c rest ih =>
    intro vz st df2 pieces h
    cases hl : df2.cols.lookup c with
    | none =>
      simp only [processTextLoop, hl]
      exact h
    | some cells =>
      obtain ⟨_, h2, _⟩ := processColumn_spec stem (cells.map cellToTokens) st h
      cases hf : fitTransform idf tfnorm vz (processColumn stem st (cells.map cellToTokens)).2 with
      | error e =>
        simp only [processTextLoop, hl, hf]
        exact h2
      | ok r =>
        simp only [processTextLoop, hl, hf]
        exact ih _ _ _ _ h2

/-! Lemmas about the reverse memo. -/

theorem reverseMemo_append (memo : List (String × String)) (k v : String) :
    reverseMemo (memo ++ [(k, v)]) = rmAdd (reverseMemo memo) v k := by
  unfold reverseMemo
  rw [List.foldl_append]
  rfl

theorem rmAdd_flat_mem_old (out : List (String × List String)) (v k x : String)
    (hx : x ∈ out.flatMap Prod.snd) : x ∈ (rmAdd out v k).flatMap Prod.snd := by
  induction out with
  | nil => simp at hx
  | cons p rest ih =>
    obtain ⟨s, l⟩ := p
    by_cases hs : s = v
    · subst hs
      simp only [rmAdd, if_pos rfl]
      simp only [List.flatMap_cons] at hx ⊢
      rcases List.mem_append.mp hx with hx | hx
      · exact List.mem_append_left _ (List.mem_append_left _ hx)
      · exact List.mem_append_right _ hx
    · simp only [rmAdd, if_neg hs]
      simp only [List.flatMap_cons] at hx ⊢
      rcases List.mem_append.mp hx with hx | hx
      · exact List.mem_append_left _ hx
      · exact List.mem_append_right _ (ih hx)

theorem rmAdd_flat_mem_new (out : List (String × List String)) (v k : String) :
    k ∈ (rmAdd out v k).flatMap Prod.snd := by
  induction out with
  | nil => simp [rmAdd]
  | cons p rest ih =>
    obtain ⟨s, l⟩ := p
    by_cases hs : s = v
    · subst hs
      simp only [rmAdd, if_pos rfl, List.flatMap_cons]
      exact List.mem_append_left _ (List.mem_append_right _ (by simp))
    · simp only [rmAdd, if_neg hs, List.flatMap_cons]
      exact List.mem_append_right _ ih

theorem mem_reverseMemo_flat (memo : List (String × String)) :
    ∀ kv ∈ memo, kv.1 ∈ (reverseMemo memo).flatMap Prod.snd := by
  induction memo using List.reverseRecOn with
  | nil => intro kv h; simp at h
  | append_singleton rest p ih =>
    intro kv h
    obtain ⟨k, v⟩ := p
    rw [reverseMemo_append]
    rcases List.mem_append.mp h with h | h
    · exact rmAdd_flat_mem_old _ _ _ _ (ih kv h)
    · have : kv = (k, v) := by simpa using h
      subst this
      exact rmAdd_flat_mem_new _ _ _

/-! The claims about the stemming stage. -/

/-- C1: in a run of the text-column loop started from the empty memo
(exactly how transform_text_data starts it), the external stemming
function is invoked at most once per distinct raw token across all rows
and all text columns (the call trace has no duplicates), and from any
state satisfying the memo invariant every processed cell maps every
occurrence of a token w to the single cached stem, so the emitted
document row is exactly the token list mapped through the stemming
function. -/
theorem C1_memoized_stemming (stem : String → String) (idf : Nat → Nat → Rat)
    (tfnorm : List Rat → List Rat) (vz : Vectorizer) (df2 : DataFrame)
    (pieces : List DataFrame) (cols : List String) :
    ((processTextLoop stem idf tfnorm vz ⟨[], []⟩ df2 pieces cols).1).calls.Nodup ∧
      ∀ st : StemState, StemInv stem st → ∀ cells : List (Option (List String)),
        (processColumn stem st cells).2 = cells.map (pyDoc stem) := by
  constructor
  · exact (processTextLoop_inv stem idf tfnorm cols vz ⟨[], []⟩ df2 pieces
      ⟨rfl, List.nodup_nil⟩).2
  · intro st h cells
    exact (processColumn_spec stem cells st h).1

theorem C1_memoized_stemming_witness :
    StemInv (fun w => w) ⟨[], []⟩ ∧
      (processColumn (fun w => w) ⟨[], []⟩
          [some ["good", "product"], none, some ["good", "product"]]).2 =
        [some ["good", "product"], none, some ["good", "product"]].map (pyDoc (fun w => w)) :=
  ⟨⟨rfl, List.nodup_nil⟩,
    (C1_memoized_stemming (fun w => w) (fun _ _ => 1) (fun r => r)
        (mkVectorizer .count 1 0 []) ⟨[]⟩ [] []).2 ⟨[], []⟩ ⟨rfl, List.nodup_nil⟩ _⟩

/-- C4: a null text cell contributes the literal document "Unknown" and
flows the stemming state through untouched: processing a column around
a null cell equals processing the other cells with the null cell
emitting "Unknown" and performing no state change (hence no stemming
call and no memo read or write). -/
theorem C4_null_cell_unknown (stem : String → String) (st : StemState)
    (pre post : List (Option (List String))) :
    processColumn stem st (pre ++ none :: post) =
      ((processColumn stem (processColumn stem st pre).1 post).1,
       (processColumn stem st pre).2 ++
         "Unknown" :: (processColumn stem (processColumn stem st pre).1 post).2) := by
  induction pre generalizing st with
  | nil =>
    rw [List.nil_append, processColumn_cons, processCell_none, processColumn_nil]
    rfl
  | cons cell pre ih =>
    rw [List.cons_append, processColumn_cons, ih, processColumn_cons]
    rfl

/-- C5: contrary to the claim, the stemming stage does not distinguish
a present-but-empty token sequence from a null one: the Python test
`if tokens:` is false for an empty list as well (even though the
source comment reads "if tokens is not none"), so an empty token
sequence is also replaced by the literal "Unknown" without touching
the stemming state. -/
theorem C5_empty_sequence_also_unknown (stem : String → String) (st : StemState) :
    processCell stem st (some []) = (st, "Unknown") ∧
      processCell stem st none = (st, "Unknown") :=
  ⟨rfl, rfl⟩

/-- C10: when the cleaned string of a text cell splits into a token
list containing the empty string (consecutive, leading or trailing
spaces), the empty token is not dropped: processing the cell from the
empty state passes "" to the external stemming function, enters "" as
a key of the stem memo, and "" therefore occurs as a surface form in
the reversed memo. -/
theorem C10_empty_token_kept (stem : String → String) (s : String)
    (h : "" ∈ tokenizeStr s) :
    "" ∈ (processCell stem ⟨[], []⟩ (some (tokenizeStr s))).1.calls ∧
      (processCell stem ⟨[], []⟩ (some (tokenizeStr s))).1.memo.lookup "" = some (stem "") ∧
      "" ∈ (reverseMemo (processCell stem ⟨[], []⟩ (some (tokenizeStr s))).1.memo).flatMap
        Prod.snd := by
  have hinv : StemInv stem ⟨[], []⟩ := ⟨rfl, List.nodup_nil⟩
  match hts : tokenizeStr s with
  | [] => rw [hts] at h; simp at h
  | w :: ws =>
    rw [hts] at h
    obtain ⟨_, hinv2, _, hmem⟩ := stemTokens_spec stem (w :: ws) ⟨[], []⟩ hinv
    have hcell : (processCell stem ⟨[], []⟩ (some (w :: ws))).1 =
        (stemTokens stem ⟨[], []⟩ (w :: ws)).1 := rfl
    have hcalls : "" ∈ (processCell stem ⟨[], []⟩ (some (w :: ws))).1.calls := by
      rw [hcell]; exact hmem "" h
    obtain ⟨hm, _⟩ := hinv2
    refine ⟨hcalls, ?_, ?_⟩
    · rw [hcell, hm, lookup_map_stem, if_pos (hcell ▸ hcalls)]
    · have : ("", stem "") ∈ (processCell stem ⟨[], []⟩ (some (w :: ws))).1.memo := by
        rw [hcell, hm]
        exact List.mem_map_of_mem _ (hcell ▸ hcalls)
      exact mem_reverseMemo_flat _ ("", stem "") this

theorem C10_empty_token_kept_witness :
    ("" ∈ tokenizeStr "a  b") ∧
      ("" ∈ (processCell (fun w => w) ⟨[], []⟩ (some (tokenizeStr "a  b"))).1.calls ∧
        (processCell (fun w => w) ⟨[], []⟩
            (some (tokenizeStr "a  b"))).1.memo.lookup "" = some ((fun w : String => w) "") ∧
        "" ∈ (reverseMemo (processCell (fun w => w) ⟨[], []⟩
            (some (tokenizeStr "a  b"))).1.memo).flatMap Prod.snd) :=
  ⟨by decide, C10_empty_token_kept (fun w => w) "a  b" (by decide)⟩

/-! The reverse-memo characterization (claim C2). -/

theorem rmAdd_lookup (out : List (String × List String)) (v k s : String) :
    (rmAdd out v k).lookup s =
      if s = v then some (((out.lookup v).getD []) ++ [k]) else out.lookup s := by
  induction out with
  | nil =>
    by_cases h : s = v
    · subst h
      simp [rmAdd, List.lookup]
    · simp [rmAdd, List.lookup, h, show (s == v) = false from by simpa using h]
  | cons p rest ih =>
    obtain ⟨u, l⟩ := p
    by_cases hv : u = v
    · subst hv
      simp only [rmAdd, if_pos rfl]
      by_cases h : s = u
      · subst h
        simp [List.lookup]
      · simp [List.lookup, show (s == u) = false from by simpa using h, h]
    · simp only [rmAdd, if_neg hv]
      by_cases h : s = u
      · subst h
        have hsv : ¬ s = v := hv
        simp [List.lookup, hsv]
      · simp only [List.lookup, show (s == u) = false from by simpa using h]
        rw [ih]
        by_cases hsv : s = v
        · subst hsv
          simp [List.lookup, show (s == u) = false from by simpa using h]
        · simp [hsv]

theorem reverseMemo_lookup (memo : List (String × String)) (s : String) :
    (reverseMemo memo).lookup s =
      if (memo.filter (fun kv => kv.2 == s)).isEmpty then none
      else some ((memo.filter (fun kv => kv.2 == s)).map Prod.fst) := by
  induction memo using List.reverseRecOn with
  | nil => simp [reverseMemo]
  | append_singleton rest p ih =>
    obtain ⟨k, v⟩ := p
    rw [reverseMemo_append, rmAdd_lookup, List.filter_append]
    by_cases h : s = v
    · subst h
      rw [if_pos rfl]
      have hf : List.filter (fun kv => kv.2 == s) [(k, s)] = [(k, s)] := by simp
      rw [hf, ih]
      by_cases hE : (rest.filter (fun kv => kv.2 == s)).isEmpty
      · rw [if_pos hE]
        have : rest.filter (fun kv => kv.2 == s) = [] := by
          simpa [List.isEmpty_iff] using hE
        simp [this]
      · rw [if_neg hE]
        have : ¬ ((rest.filter (fun kv => kv.2 == s)) ++ [(k, s)]).isEmpty := by
          simp [List.isEmpty_iff]
        simp [this]
    · rw [if_neg h]
      have hvs : (v == s) = false := beq_eq_false_iff_ne.mpr (fun he => h he.symm)
      have hf : List.filter (fun kv => kv.2 == s) [(k, v)] = [] := by
        simp [List.filter_cons, hvs]
      rw [hf, List.append_nil, ih]

theorem rmAdd_keys (out : List (String × List String)) (v k : String) :
    (rmAdd out v k).map Prod.fst =
      if v ∈ out.map Prod.fst then out.map Prod.fst else out.map Prod.fst ++ [v] := by
  induction out with
  | nil => simp [rmAdd]
  | cons p rest ih =>
    obtain ⟨u, l⟩ := p
    by_cases hv : u = v
    · subst hv
      simp [rmAdd]
    · simp only [rmAdd, if_neg hv, List.map_cons, ih, List.mem_cons]
      by_cases hm : v ∈ rest.map Prod.fst
      · rw [if_pos hm, if_pos (Or.inr hm)]
      · rw [if_neg hm, if_neg (show ¬ (v = u ∨ v ∈ rest.map Prod.fst) from by
          rintro (he | he)
          · exact hv he.symm
          · exact hm he)]
        rfl

theorem reverseMemo_keys_mem (memo : List (String × String)) :
    ∀ s : String, s ∈ (reverseMemo memo).map Prod.fst ↔ s ∈ memo.map Prod.snd := by
  induction memo using List.reverseRecOn with
  | nil => intro s; simp [reverseMemo]
  | append_singleton rest p ih =>
    intro s
    obtain ⟨k, v⟩ := p
    rw [reverseMemo_append, rmAdd_keys]
    by_cases hm : v ∈ (reverseMemo rest).map Prod.fst
    · rw [if_pos hm]
      rw [ih s]
      simp only [List.map_append, List.map_cons, List.map_nil, List.mem_append]
      constructor
      · intro h
        exact Or.inl h
      · rintro (h | h)
        · exact h
        · have hs : s = v := by simpa using h
          subst hs
          exact (ih s).mp hm
    · rw [if_neg hm]
      simp [List.mem_append, ih s]

theorem reverseMemo_keys_nodup (memo : List (String × String)) :
    ((reverseMemo memo).map Prod.fst).Nodup := by
  induction memo using List.reverseRecOn with
  | nil => simp [reverseMemo]
  | append_singleton rest p ih =>
    obtain ⟨k, v⟩ := p
    rw [reverseMemo_append, rmAdd_keys]
    by_cases hm : v ∈ (reverseMemo rest).map Prod.fst
    · rw [if_pos hm]
      exact ih
    · rw [if_neg hm]
      simp [List.nodup_append, ih, hm]

theorem lookup_of_mem_keys_nodup {β : Type} (l : List (String × β))
    (hnd : (l.map Prod.fst).Nodup) (p : String × β) (hp : p ∈ l) :
    l.lookup p.1 = some p.2 := by
  induction l with
  | nil => simp at hp
  | cons q rest ih =>
    obtain ⟨u, b⟩ := q
    simp only [List.map_cons, List.nodup_cons] at hnd
    rcases List.mem_cons.mp hp with hp | hp
    · subst hp
      simp [List.lookup]
    · have hne : p.1 ≠ u := by
        intro he
        exact hnd.1 (he ▸ List.mem_map_of_mem Prod.fst hp)
      simp only [List.lookup, show (p.1 == u) = false from by simpa using hne]
      exact ih hnd.2 hp

theorem eq_of_mem_keys_nodup {β : Type} (l : List (String × β))
    (hnd : (l.map Prod.fst).Nodup) (p q : String × β) (hp : p ∈ l) (hq : q ∈ l)
    (h : p.1 = q.1) : p = q := by
  have h1 := lookup_of_mem_keys_nodup l hnd p hp
  have h2 := lookup_of_mem_keys_nodup l hnd q hq
  rw [h] at h1
  have h3 : p.2 = q.2 := Option.some.inj (h1.symm.trans h2)
  obtain ⟨a, b⟩ := p
  obtain ⟨c, d⟩ := q
  simp_all

theorem rmAdd_sum (out : List (String × List String)) (v k : String) :
    ((rmAdd out v k).map (fun p => p.2.length)).sum =
      ((out.map (fun p => p.2.length)).sum) + 1 := by
  induction out with
  | nil => simp [rmAdd]
  | cons p rest ih =>
    obtain ⟨u, l⟩ := p
    by_cases hv : u = v
    · subst hv
      rw [show rmAdd ((u, l) :: rest) u k = (u, l ++ [k]) :: rest from by simp [rmAdd]]
      simp only [List.map_cons, List.sum_cons, List.length_append, List.length_cons,
        List.length_nil]
      omega
    · simp only [rmAdd, if_neg hv, List.map_cons, List.sum_cons, ih]
      omega

theorem reverseMemo_sum (memo : List (String × String)) :
    ((reverseMemo memo).map (fun p => p.2.length)).sum = memo.length := by
  induction memo using List.reverseRecOn with
  | nil => simp [reverseMemo]
  | append_singleton rest p ih =>
    obtain ⟨k, v⟩ := p
    rw [reverseMemo_append, rmAdd_sum, ih]
    simp

/-- C2: for a stem memo with distinct raw-token keys (a Python dict),
the reversed memo places every raw token in the list keyed by its stem,
in exactly one list overall; the lengths of the lists sum to the number
of distinct raw tokens (the size of the memo); and the keys of the
reversed memo are exactly the distinct stem values of the memo. -/
theorem C2_reverse_memo_partition (memo : List (String × String))
    (hnd : (memo.map Prod.fst).Nodup) :
    (∀ kv ∈ memo, ∃ l, (reverseMemo memo).lookup kv.2 = some l ∧ kv.1 ∈ l ∧
        (reverseMemo memo).countP (fun p => decide (kv.1 ∈ p.2)) = 1) ∧
      ((reverseMemo memo).map (fun p => p.2.length)).sum = memo.length ∧
      ∀ s : String, s ∈ (reverseMemo memo).map Prod.fst ↔ s ∈ memo.map Prod.snd := by
  refine ⟨?_, reverseMemo_sum memo, fun s => reverseMemo_keys_mem memo s⟩
  intro kv hkv
  have hmemF : kv ∈ memo.filter (fun p => p.2 == kv.2) := by
    simp [List.mem_filter, hkv]
  have hne : ¬ (memo.filter (fun p => p.2 == kv.2)).isEmpty := by
    simp only [List.isEmpty_iff]
    intro h
    rw [h] at hmemF
    simp at hmemF
  refine ⟨(memo.filter (fun p => p.2 == kv.2)).map Prod.fst, ?_, ?_, ?_⟩
  · rw [reverseMemo_lookup, if_neg hne]
  · exact List.mem_map_of_mem Prod.fst hmemF
  · have hstep : ∀ p ∈ reverseMemo memo,
        (decide (kv.1 ∈ p.2) = true) ↔ ((p.1 == kv.2) = true) := by
      intro p hp
      have hl := lookup_of_mem_keys_nodup (reverseMemo memo) (reverseMemo_keys_nodup memo) p hp
      rw [reverseMemo_lookup] at hl
      by_cases hE : (memo.filter (fun q => q.2 == p.1)).isEmpty
      · rw [if_pos hE] at hl
        exact absurd hl (by simp)
      · rw [if_neg hE] at hl
        injection hl with hl
        constructor
        · intro hmem
          rw [← hl] at hmem
          simp only [decide_eq_true_eq] at hmem
          obtain ⟨q, hq, hq1⟩ := List.mem_map.mp hmem
          obtain ⟨hqmem, hq2⟩ := List.mem_filter.mp hq
          have hqkv : q = kv := eq_of_mem_keys_nodup memo hnd q kv hqmem hkv hq1
          rw [hqkv] at hq2
          have hq2' : kv.2 = p.1 := by simpa using hq2
          simpa using hq2'.symm
        · intro hpk
          have hpk : p.1 = kv.2 := by simpa using hpk
          rw [← hl]
          simp only [decide_eq_true_eq]
          refine List.mem_map.mpr ⟨kv, ?_, rfl⟩
          simp [List.mem_filter, hkv, hpk]
    rw [List.countP_congr hstep]
    have hcount : (reverseMemo memo).countP (fun p => p.1 == kv.2) =
        ((reverseMemo memo).map Prod.fst).countP (fun s => s == kv.2) := by
      rw [List.countP_map]
      rfl
    rw [hcount]
    have : ((reverseMemo memo).map Prod.fst).count kv.2 = 1 :=
      List.count_eq_one_of_mem (reverseMemo_keys_nodup memo)
        ((reverseMemo_keys_mem memo kv.2).mpr (List.mem_map_of_mem Prod.snd hkv))
    simpa [List.count] using this

theorem C2_reverse_memo_partition_witness :
    (([("running", "run"), ("runs", "run"), ("cat", "cat")].map Prod.fst).Nodup) ∧
      ((∀ kv ∈ [("running", "run"), ("runs", "run"), ("cat", "cat")], ∃ l,
          (reverseMemo [("running", "run"), ("runs", "run"), ("cat", "cat")]).lookup kv.2 =
            some l ∧ kv.1 ∈ l ∧
          (reverseMemo [("running", "run"), ("runs", "run"), ("cat", "cat")]).countP
            (fun p => decide (kv.1 ∈ p.2)) = 1) ∧
        ((reverseMemo [("running", "run"), ("runs", "run"), ("cat", "cat")]).map
          (fun p => p.2.length)).sum =
            ([("running", "run"), ("runs", "run"), ("cat", "cat")] :
              List (String × String)).length ∧
        ∀ s : String,
          s ∈ (reverseMemo [("running", "run"), ("runs", "run"), ("cat", "cat")]).map Prod.fst ↔
            s ∈ [("running", "run"), ("runs", "run"), ("cat", "cat")].map Prod.snd) :=
  ⟨by decide, C2_reverse_memo_partition _ (by decide)⟩

/-! Error surfacing (claim C3). -/

theorem fitTransform_minmax_error (idf : Nat → Nat → Rat) (tfnorm : List Rat → List Rat)
    (v : Vectorizer) (docs : List String)
    (h0 : 0 ≤ v.max_df) (h1 : v.max_df ≤ 1) (h2 : 0 ≤ v.min_df) (h3 : v.min_df ≤ 1)
    (hlt : v.max_df < v.min_df) (hdocs : docs ≠ [])
    (hvoc : candidateVocab v.stop_words docs ≠ []) :
    fitTransform idf tfnorm v docs =
      .error "max_df corresponds to < documents than min_df" := by
  have hn : (0 : Rat) < (docs.length : Rat) := by
    exact_mod_cast List.length_pos.mpr hdocs
  simp only [fitTransform]
  rw [if_neg (by
    simp only [not_or, not_lt]
    exact ⟨h0, h1, h2, h3⟩)]
  rw [if_neg (by simpa [List.isEmpty_iff] using hvoc)]
  rw [if_pos ((mul_lt_mul_right hn).mpr hlt)]

/-- C3 counterexample: with a single one-row text column, min_df = 3/5
and max_df = 1/2 (both thresholds inside the unit interval but with
min_df above max_df), the call fails, yet the very loop that the run
executes has already invoked the external stemming function on the
column's token before the error surfaces, so the configuration error is
not raised before any column is processed. -/
theorem C3_fail_fast_cex :
    transform_text_data (fun w => w) (fun _ _ => 1) (fun r => r) []
        ⟨[("t", [Cell.str "good"])]⟩ [] ["t"] false "count" (1 / 2 : Rat) (3 / 5 : Rat) =
      .error "max_df corresponds to < documents than min_df" ∧
      (processTextLoop (fun w => w) (fun _ _ => 1) (fun r => r)
          (mkVectorizer .count (1 / 2 : Rat) (3 / 5 : Rat) []) ⟨[], []⟩
          ⟨[("t", [Cell.toks ["good"]])]⟩ [] ["t"]).1.calls = ["good"] := by
  constructor
  · decide
  · decide

/-- C3 (amended): a min_df above max_df (both inside the unit interval)
is not caught up front: whenever the first text column exists, has at
least one row and yields a non-empty candidate vocabulary, the run
surfaces the pruning error only at that column's vectorization call,
after the column has already been stemmed; the loop's result is exactly
the post-stemming state of the first column together with the error, and
no partial table is produced. -/
theorem C3_minmax_after_first_column (stem : String → String) (idf : Nat → Nat → Rat)
    (tfnorm : List Rat → List Rat) (kind : VectorizerKind) (stop : List String)
    (maxd mind : Rat) (st : StemState) (df2 : DataFrame) (pieces : List DataFrame)
    (c : String) (rest : List String) (cells : List Cell)
    (hlook : df2.cols.lookup c = some cells)
    (h0 : 0 ≤ maxd) (h1 : maxd ≤ 1) (h2 : 0 ≤ mind) (h3 : mind ≤ 1)
    (hlt : maxd < mind) (hne : cells ≠ [])
    (hvoc : candidateVocab stop (processColumn stem st (cells.map cellToTokens)).2 ≠ []) :
    processTextLoop stem idf tfnorm (mkVectorizer kind maxd mind stop) st df2 pieces
        (c :: rest) =
      ((processColumn stem st (cells.map cellToTokens)).1,
        .error "max_df corresponds to < documents than min_df") := by
  have hdocs : (processColumn stem st (cells.map cellToTokens)).2 ≠ [] := by
    intro h
    have hlen := processColumn_length stem (cells.map cellToTokens) st
    rw [h] at hlen
    simp only [List.length_nil, List.length_map] at hlen
    exact hne (List.length_eq_zero.mp hlen.symm)
  simp only [processTextLoop, hlook]
  rw [fitTransform_minmax_error idf tfnorm _ _ h0 h1 h2 h3 hlt hdocs hvoc]

theorem C3_minmax_after_first_column_witness :
    ((⟨[("t", [Cell.toks ["good"]])]⟩ : DataFrame).cols.lookup "t" =
        some [Cell.toks ["good"]] ∧
      (0 : Rat) ≤ 1 / 2 ∧ (1 / 2 : Rat) ≤ 1 ∧ (0 : Rat) ≤ 3 / 5 ∧ (3 / 5 : Rat) ≤ 1 ∧
      (1 / 2 : Rat) < 3 / 5 ∧ [Cell.toks ["good"]] ≠ [] ∧
      candidateVocab []
        (processColumn (fun w => w) ⟨[], []⟩ ([Cell.toks ["good"]].map cellToTokens)).2 ≠ []) ∧
      processTextLoop (fun w => w) (fun _ _ => 1) (fun r => r)
          (mkVectorizer .count (1 / 2 : Rat) (3 / 5 : Rat) []) ⟨[], []⟩
          ⟨[("t", [Cell.toks ["good"]])]⟩ [] ["t"] =
        ((processColumn (fun w => w) ⟨[], []⟩ ([Cell.toks ["good"]].map cellToTokens)).1,
          .error "max_df corresponds to < documents than min_df") :=
  ⟨⟨by decide, by decide, by decide, by decide, by decide, by decide, by decide, by decide⟩,
    C3_minmax_after_first_column (fun w => w) (fun _ _ => 1) (fun r => r) .count []
      (1 / 2) (3 / 5) ⟨[], []⟩ ⟨[("t", [Cell.toks ["good"]])]⟩ [] "t" [] [Cell.toks ["good"]]
      (by decide) (by decide) (by decide) (by decide) (by decide) (by decide) (by decide)
      (by decide)⟩

/-! Column naming (claim C6). -/

/-- C6 counterexample: with the non-overlapping column lists ["a::word"]
and ["a"], the one-hot column of column "a::word" for category "bb" and
the text-feature column of column "a" for term "bb" carry the same
generated name "a::word::bb"; in the concrete run the mutated dataframe
and the feature piece reaching the final concatenation both hold a
column of that name, so the run raises the polars duplicate-name error
at the horizontal concat instead of returning a collision-free table. -/
theorem C6_naming_collision_cex :
    oneHotName "a::word" "bb" = textWordName "a" "bb" ∧ ("a::word" : String) ≠ "a" ∧
      (processTextLoop (fun w => w) (fun _ _ => 1) (fun r => r)
          (mkVectorizer .count 1 0 []) ⟨[], []⟩
          ⟨[("a", [Cell.toks ["bb"]]), ("a::word::bb", [Cell.num 1])]⟩ [] ["a"]).2 =
        .ok (⟨[("a::word::bb", [Cell.num 1])]⟩, [⟨[("a::word::bb", [Cell.num 1])]⟩]) ∧
      transform_text_data (fun w => w) (fun _ _ => 1) (fun r => r) []
          ⟨[("a::word", [Cell.str "bb"]), ("a", [Cell.str "bb"])]⟩
          ["a::word"] ["a"] false "count" 1 0 =
        .error "unable to hstack, column with name occurs more than once" := by
  refine ⟨by decide, by decide, by decide, by decide⟩

/-- C6 (amended): one-hot column names and text-feature column names
never collide provided the column names, the category value and the
vocabulary term contain no colon character (the separator the two
naming schemes are built from); without that restriction the names can
collide even for non-overlapping column lists. -/
theorem C6_naming_collision_free (oc cat tc term : String)
    (h1 : ':' ∉ oc.toList) (h2 : ':' ∉ cat.toList) (h3 : ':' ∉ tc.toList)
    (h4 : ':' ∉ term.toList) :
    oneHotName oc cat ≠ textWordName tc term := by
  intro h
  have hc := congrArg (fun s : String => s.toList.count ':') h
  have e1 : (oneHotName oc cat).toList = (oc.toList ++ [':', ':']) ++ cat.toList := by
    obtain ⟨od⟩ := oc
    obtain ⟨cd⟩ := cat
    rfl
  have e2 : (textWordName tc term).toList =
      (tc.toList ++ [':', ':', 'w', 'o', 'r', 'd', ':', ':']) ++ term.toList := by
    obtain ⟨td⟩ := tc
    obtain ⟨wd⟩ := term
    rfl
  simp only [e1, e2, List.count_append, List.count_cons,
    List.count_eq_zero_of_not_mem h1, List.count_eq_zero_of_not_mem h2,
    List.count_eq_zero_of_not_mem h3, List.count_eq_zero_of_not_mem h4] at hc
  simp at hc

theorem C6_naming_collision_free_witness :
    ((':' ∉ "x".toList) ∧ (':' ∉ "y".toList) ∧ (':' ∉ "z".toList) ∧ (':' ∉ "ww".toList)) ∧
      oneHotName "x" "y" ≠ textWordName "z" "ww" :=
  ⟨⟨by decide, by decide, by decide, by decide⟩,
    C6_naming_collision_free "x" "y" "z" "ww" (by decide) (by decide) (by decide) (by decide)⟩

/-! Row count and row order (claim C7). -/

theorem lookup_mem {β : Type} : ∀ (l : List (String × β)) (c : String) (b : β),
    l.lookup c = some b → (c, b) ∈ l := by
  intro l
  induction l with
  | nil => intro c b h; simp [List.lookup] at h
  | cons q rest ih =>
    intro c b h
    obtain ⟨u, x⟩ := q
    by_cases hc : c = u
    · subst hc
      simp only [List.lookup, beq_self_eq_true] at h
      injection h with h
      rw [← h]
      exact List.mem_cons_self _ _
    · simp only [List.lookup, show (c == u) = false from by simpa using hc] at h
      exact List.mem_cons_of_mem _ (ih c b h)

theorem cleanCell_ok (x y : Cell) (h : cleanCell x = .ok y) : y = cleanCellTotal x := by
  cases x with
  | str s =>
    injection h with h
    rw [← h]
    rfl
  | null =>
    injection h with h
    rw [← h]
    rfl
  | toks ts => injection h
  | num q => injection h

theorem mapExcept_ok : ∀ (l l' : List Cell), mapExcept cleanCell l = .ok l' →
    l' = l.map cleanCellTotal := by
  intro l
  induction l with
  | nil =>
    intro l' h
    injection h with h
    rw [← h]
    rfl
  | cons x xs ih =>
    intro l' h
    simp only [mapExcept] at h
    cases hx : cleanCell x with
    | error e => rw [hx] at h; injection h
    | ok y =>
      rw [hx] at h
      cases hxs : mapExcept cleanCell xs with
      | error e => rw [hxs] at h; injection h
      | ok ys =>
        rw [hxs] at h
        injection h with h
        rw [← h, List.map_cons, cleanCell_ok x y hx, ih ys hxs]

theorem derivedFrom_refl (df : DataFrame) : DerivedFrom df df :=
  fun p hp => ⟨p, hp, id, (List.map_id p.2).symm⟩

theorem derivedFrom_trans {a b c : DataFrame} (h1 : DerivedFrom a b) (h2 : DerivedFrom b c) :
    DerivedFrom a c := by
  intro p hp
  obtain ⟨q, hq, f, hf⟩ := h2 p hp
  obtain ⟨r, hr, g, hg⟩ := h1 q hq
  exact ⟨r, hr, f ∘ g, by rw [hf, hg, List.map_map]⟩

theorem getDummies_derived (df : DataFrame) (ohc : List String) (dropf : Bool)
    (out : DataFrame) (h : getDummies df ohc dropf = .ok out) : DerivedFrom df out := by
  simp only [getDummies] at h
  cases hfind : ohc.find? (fun c => (df.cols.lookup c).isNone) with
  | some c => rw [hfind] at h; injection h
  | none =>
    rw [hfind] at h
    injection h with h
    intro p hp
    rw [← h] at hp
    rcases List.mem_append.mp hp with hp | hp
    · exact ⟨p, List.mem_of_mem_filter hp, id, (List.map_id p.2).symm⟩
    · obtain ⟨c, hc, hpc⟩ := List.mem_flatMap.mp hp
      cases hv : df.cols.lookup c with
      | none =>
        have := List.find?_eq_none.mp hfind c hc
        rw [hv] at this
        simp at this
      | some vals =>
        have hmem : (c, vals) ∈ df.cols := lookup_mem _ _ _ hv
        rw [hv] at hpc
        simp only [dummyCols, Option.getD_some] at hpc
        obtain ⟨cat, _, hpcat⟩ := List.mem_map.mp hpc
        refine ⟨(c, vals), hmem,
          fun v => Cell.num (if v = Cell.str cat then 1 else 0), ?_⟩
        rw [← hpcat]

theorem cleanColumnIn_derived (df : DataFrame) (t : String) (out : DataFrame)
    (h : cleanColumnIn df t = .ok out) : DerivedFrom df out := by
  simp only [cleanColumnIn] at h
  cases hv : df.cols.lookup t with
  | none => rw [hv] at h; injection h
  | some cells =>
    rw [hv] at h
    dsimp only at h
    cases hm : mapExcept cleanCell cells with
    | error e => rw [hm] at h; injection h
    | ok cleaned =>
      rw [hm] at h
      injection h with h
      intro p hp
      rw [← h] at hp
      obtain ⟨q, hq, hpq⟩ := List.mem_map.mp hp
      by_cases hqt : q.1 = t
      · rw [if_pos hqt] at hpq
        refine ⟨(t, cells), lookup_mem _ _ _ hv, cleanCellTotal, ?_⟩
        rw [← hpq]
        exact mapExcept_ok cells cleaned hm
      · rw [if_neg hqt] at hpq
        rw [← hpq]
        exact ⟨q, hq, id, (List.map_id q.2).symm⟩

theorem cleanTextCols_derived : ∀ (ts : List String) (df out : DataFrame),
    cleanTextCols df ts = .ok out → DerivedFrom df out := by
  intro ts
  induction ts with
  | nil =>
    intro df out h
    injection h with h
    rw [← h]
    exact derivedFrom_refl df
  | cons t ts ih =>
    intro df out h
    simp only [cleanTextCols] at h
    cases hc : cleanColumnIn df t with
    | error e => rw [hc] at h; injection h
    | ok df2 =>
      rw [hc] at h
      exact derivedFrom_trans (cleanColumnIn_derived df t df2 hc) (ih df2 out h)

theorem fitTransform_ok_rows (idf : Nat → Nat → Rat) (tfnorm : List Rat → List Rat)
    (v : Vectorizer) (docs : List String) (r : Vectorizer × FitOutput)
    (h : fitTransform idf tfnorm v docs = .ok r) :
    ∃ g : String → List Rat, r.2.matrix = docs.map g := by
  simp only [fitTransform] at h
  split at h
  · injection h
  · split at h
    · injection h
    · split at h
      · injection h
      · split at h
        · injection h
        · injection h with h
          rw [← h]
          cases v.kind with
          | count =>
            dsimp only
            exact ⟨_, List.map_map _ sklearnTokenize docs⟩
          | tfidf =>
            dsimp only
            exact ⟨_, List.map_map _ sklearnTokenize docs⟩

theorem mkPiece_cols (names : List String) (X : List (List Rat)) (p : String × List Cell)
    (hp : p ∈ (mkPiece names X).cols) :
    ∃ j : Nat, p.2 = X.map (fun row => Cell.num (row.getD j 0)) := by
  simp only [mkPiece, List.mapIdx_eq_enum_map] at hp
  obtain ⟨jn, _, hjn⟩ := List.mem_map.mp hp
  obtain ⟨j, nm⟩ := jn
  refine ⟨j, ?_⟩
  rw [← hjn]
  rfl

theorem processTextLoop_ok_derived (stem : String → String) (idf : Nat → Nat → Rat)
    (tfnorm : List Rat → List Rat) (base : DataFrame) :
    ∀ (cols : List String) (vz : Vectorizer) (st : StemState) (df2 : DataFrame)
      (pieces : List DataFrame) (st2 : StemState) (res : DataFrame × List DataFrame),
      StemInv stem st →
      DerivedFrom base df2 →
      (∀ pc ∈ pieces, DerivedFrom base pc) →
      processTextLoop stem idf tfnorm vz st df2 pieces cols = (st2, .ok res) →
      DerivedFrom base res.1 ∧ ∀ pc ∈ res.2, DerivedFrom base pc := by
  intro cols
  induction cols with
  | nil =>
    intro vz st df2 pieces st2 res hinv hdf hpieces h
    simp only [processTextLoop] at h
    injection h with h1 h2
    injection h2 with h2
    rw [← h2]
    exact ⟨hdf, hpieces⟩
  | cons c rest ih =>
    intro vz st df2 pieces st2 res hinv hdf hpieces h
    simp only [processTextLoop] at h
    cases hl : df2.cols.lookup c with
    | none =>
      rw [hl] at h
      injection h with h1 h2
      injection h2
    | some cells =>
      rw [hl] at h
      dsimp only at h
      cases hf : fitTransform idf tfnorm vz
          (processColumn stem st (cells.map cellToTokens)).2 with
      | error e =>
        rw [hf] at h
        injection h with h1 h2
        injection h2
      | ok r =>
        rw [hf] at h
        dsimp only at h
        obtain ⟨hdocs, hinv2, _⟩ := processColumn_spec stem (cells.map cellToTokens) st hinv
        refine ih r.1 _ _ _ st2 res hinv2 ?_ ?_ h
        · intro p hp
          exact hdf p (List.mem_of_mem_eraseP hp)
        · intro pc hpc
          rcases List.mem_append.mp hpc with hpc | hpc
          · exact hpieces pc hpc
          · have hpc1 : pc =
                mkPiece (r.2.features.map (fun x => textWordName c x)) r.2.matrix := by
              simpa using hpc
            rw [hpc1]
            intro p hp
            obtain ⟨j, hpj⟩ := mkPiece_cols _ _ p hp
            obtain ⟨g, hg⟩ := fitTransform_ok_rows idf tfnorm vz _ r hf
            obtain ⟨q, hq, f0, hf0⟩ := hdf (c, cells) (lookup_mem _ _ _ hl)
            refine ⟨q, hq,
              fun cell => Cell.num ((g (pyDoc stem (cellToTokens (f0 cell)))).getD j 0), ?_⟩
            rw [hpj, hg, hdocs]
            have hcells : cells = q.2.map f0 := hf0
            rw [hcells, List.map_map, List.map_map, List.map_map, List.map_map]
            congr 1

/-- C7: on any rectangular input (every column of height h), a
successful run returns a table every column of which still has height
h, and moreover every output column is the pointwise image of some
input column under a per-cell function, so the i-th output row is
computed from the i-th input row: row count and row order are preserved
end-to-end. -/
theorem C7_row_count_preserved (stem : String → String) (idf : Nat → Nat → Rat)
    (tfnorm : List Rat → List Rat) (stop : List String) (df : DataFrame)
    (one_hot_cols text_cols : List String) (drop_first : Bool) (vectorize_method : String)
    (maxd mind : Rat) (h : Nat) (out : DataFrame) (rm : List (String × List String))
    (hrect : ∀ p ∈ df.cols, p.2.length = h)
    (hok : transform_text_data stem idf tfnorm stop df one_hot_cols text_cols drop_first
        vectorize_method maxd mind = .ok (out, rm)) :
    ∀ p ∈ out.cols, p.2.length = h ∧ ∃ q ∈ df.cols, ∃ f : Cell → Cell, p.2 = q.2.map f := by
  unfold transform_text_data at hok
  cases hd : getDummies df one_hot_cols drop_first with
  | error e => rw [hd] at hok; injection hok
  | ok df1 =>
    rw [hd] at hok
    dsimp only at hok
    cases hc : cleanTextCols df1 text_cols with
    | error e => rw [hc] at hok; injection hok
    | ok df2 =>
      rw [hc] at hok
      dsimp only at hok
      cases hL : processTextLoop stem idf tfnorm
          (mkVectorizer (chooseKind vectorize_method) maxd mind stop) ⟨[], []⟩ df2 []
          text_cols with
      | mk st exc =>
        rw [hL] at hok
        cases exc with
        | error e => injection hok
        | ok res =>
          dsimp only at hok
          split at hok
          case isFalse => injection hok
          case isTrue =>
          injection hok with hok
          injection hok with hok1 hok2
          have hder2 : DerivedFrom df df2 :=
            derivedFrom_trans (getDummies_derived df one_hot_cols drop_first df1 hd)
              (cleanTextCols_derived text_cols df1 df2 hc)
          have hder := processTextLoop_ok_derived stem idf tfnorm df text_cols
            (mkVectorizer (chooseKind vectorize_method) maxd mind stop) ⟨[], []⟩ df2 [] st res
            ⟨rfl, List.nodup_nil⟩ hder2 (by intro pc hpc; simp at hpc) hL
          intro p hp
          rw [← hok1] at hp
          have hpd : ∃ q ∈ df.cols, ∃ f : Cell → Cell, p.2 = q.2.map f := by
            rcases List.mem_append.mp hp with hp | hp
            · exact hder.1 p hp
            · obtain ⟨l, hl, hpl⟩ := List.mem_flatten.mp hp
              obtain ⟨pc, hpc, hpcl⟩ := List.mem_map.mp hl
              exact hder.2 pc hpc p (hpcl ▸ hpl)
          obtain ⟨q, hq, f, hf⟩ := hpd
          refine ⟨?_, q, hq, f, hf⟩
          rw [hf, List.length_map]
          exact hrect q hq

theorem C7_row_count_preserved_witness :
    (∀ p ∈ (⟨[("category", [Cell.str "a", Cell.str "b", Cell.str "a"]),
          ("review", [Cell.str "Good product", Cell.null, Cell.str "good Product!!"])]⟩ :
            DataFrame).cols, p.2.length = 3) ∧
      ∀ p ∈ (⟨[("category::a", [Cell.num 1, Cell.num 0, Cell.num 1]),
          ("category::b", [Cell.num 0, Cell.num 1, Cell.num 0]),
          ("review::word::good", [Cell.num 1, Cell.num 0, Cell.num 1]),
          ("review::word::product", [Cell.num 1, Cell.num 0, Cell.num 1]),
          ("review::word::unknown", [Cell.num 0, Cell.num 1, Cell.num 0])]⟩ :
            DataFrame).cols,
        p.2.length = 3 ∧
          ∃ q ∈ (⟨[("category", [Cell.str "a", Cell.str "b", Cell.str "a"]),
              ("review", [Cell.str "Good product", Cell.null, Cell.str "good Product!!"])]⟩ :
                DataFrame).cols, ∃ f : Cell → Cell, p.2 = q.2.map f :=
  ⟨by decide,
    C7_row_count_preserved (fun w => w) (fun _ _ => 1) (fun r => r) []
      ⟨[("category", [Cell.str "a", Cell.str "b", Cell.str "a"]),
        ("review", [Cell.str "Good product", Cell.null, Cell.str "good Product!!"])]⟩
      ["category"] ["review"] false "count" 1 0 3
      ⟨[("category::a", [Cell.num 1, Cell.num 0, Cell.num 1]),
        ("category::b", [Cell.num 0, Cell.num 1, Cell.num 0]),
        ("review::word::good", [Cell.num 1, Cell.num 0, Cell.num 1]),
        ("review::word::product", [Cell.num 1, Cell.num 0, Cell.num 1]),
        ("review::word::unknown", [Cell.num 0, Cell.num 1, Cell.num 0])]⟩
      [("good", ["good"]), ("product", ["product"])]
      (by decide) (by decide)⟩

/-! Vectorizer reuse (claim C9). -/

theorem fitTransform_config (idf : Nat → Nat → Rat) (tfnorm : List Rat → List Rat)
    (kind : VectorizerKind) (maxd mind : Rat) (stop : List String)
    (f g : Option (List String)) (docs : List String) :
    fitTransform idf tfnorm ⟨kind, maxd, mind, stop, f⟩ docs =
      fitTransform idf tfnorm ⟨kind, maxd, mind, stop, g⟩ docs := rfl

theorem fitTransform_ok_fitted (idf : Nat → Nat → Rat) (tfnorm : List Rat → List Rat)
    (v : Vectorizer) (docs : List String) (r : Vectorizer × FitOutput)
    (h : fitTransform idf tfnorm v docs = .ok r) :
    r.1 = { v with fitted := some r.2.features } := by
  simp only [fitTransform] at h
  split at h
  · injection h
  · split at h
    · injection h
    · split at h
      · injection h
      · split at h
        · injection h
        · injection h with h
          rw [← h]

theorem processTextLoop_fresh_eq (stem : String → String) (idf : Nat → Nat → Rat)
    (tfnorm : List Rat → List Rat) (kind : VectorizerKind) (maxd mind : Rat)
    (stop : List String) :
    ∀ (cols : List String) (f : Option (List String)) (st : StemState) (df2 : DataFrame)
      (pieces : List DataFrame),
      processTextLoop stem idf tfnorm ⟨kind, maxd, mind, stop, f⟩ st df2 pieces cols =
        processTextLoopFresh stem idf tfnorm kind maxd mind stop st df2 pieces cols := by
  intro cols
  induction cols with
  | nil => intro f st df2 pieces; rfl
  | cons c rest ih =>
    intro f st df2 pieces
    cases hl : df2.cols.lookup c with
    | none => simp only [processTextLoop, processTextLoopFresh, hl]
    | some cells =>
      have hcfg := fitTransform_config idf tfnorm kind maxd mind stop f none
        (processColumn stem st (cells.map cellToTokens)).2
      simp only [processTextLoop, processTextLoopFresh, hl, mkVectorizer]
      rw [hcfg]
      cases hf : fitTransform idf tfnorm ⟨kind, maxd, mind, stop, none⟩
          (processColumn stem st (cells.map cellToTokens)).2 with
      | error e => rfl
      | ok r =>
        have hr := fitTransform_ok_fitted idf tfnorm _ _ r hf
        dsimp only
        rw [hr]
        exact ih (some r.2.features) _ _ _

/-- C9: reusing the one vectorizer object across the text columns, as
the source does, is observably equivalent to constructing a fresh,
independently fitted vectorizer for every text column: a fit_transform
call depends only on the configuration and the documents it is given,
never on the previously fitted state, so the whole transformation
coincides with its fresh-per-column variant on every input. -/
theorem C9_vectorizer_reuse_equiv (stem : String → String) (idf : Nat → Nat → Rat)
    (tfnorm : List Rat → List Rat) (stop : List String) (df : DataFrame)
    (one_hot_cols text_cols : List String) (drop_first : Bool)
    (vectorize_method : String) (maxd mind : Rat) :
    transform_text_data stem idf tfnorm stop df one_hot_cols text_cols drop_first
        vectorize_method maxd mind =
      transform_text_data_fresh stem idf tfnorm stop df one_hot_cols text_cols drop_first
        vectorize_method maxd mind := by
  unfold transform_text_data transform_text_data_fresh
  simp only [mkVectorizer]
  simp only [processTextLoop_fresh_eq]

/-! Method dispatch (claim C8). -/

/-- C8: the vectorize_method string "tfidf" selects the tf-idf
vectorizer; every other string, the default "count" included, selects
the count vectorizer, and an unrecognized string raises no error: the
whole transformation behaves exactly as with "count". -/
theorem C8_method_dispatch (stem : String → String) (idf : Nat → Nat → Rat)
    (tfnorm : List Rat → List Rat) (stop : List String) (df : DataFrame)
    (one_hot_cols text_cols : List String) (drop_first : Bool) (maxd mind : Rat)
    (s : String) (hs : s ≠ "tfidf") :
    chooseKind "tfidf" = VectorizerKind.tfidf ∧ chooseKind s = VectorizerKind.count ∧
      transform_text_data stem idf tfnorm stop df one_hot_cols text_cols drop_first
          s maxd mind =
        transform_text_data stem idf tfnorm stop df one_hot_cols text_cols drop_first
          "count" maxd mind := by
  have hck : chooseKind s = chooseKind "count" := by
    unfold chooseKind
    rw [if_neg hs, if_neg (by decide)]
  refine ⟨rfl, ?_, ?_⟩
  · unfold chooseKind
    rw [if_neg hs]
  · unfold transform_text_data
    rw [hck]

theorem C8_method_dispatch_witness :
    ("bogus" : String) ≠ "tfidf" ∧
      (chooseKind "tfidf" = VectorizerKind.tfidf ∧
        chooseKind "bogus" = VectorizerKind.count ∧
        transform_text_data (fun w => w) (fun _ _ => 1) (fun r => r) []
            ⟨[("t", [Cell.str "good"])]⟩ [] ["t"] false "bogus" 1 0 =
          transform_text_data (fun w => w) (fun _ _ => 1) (fun r => r) []
            ⟨[("t", [Cell.str "good"])]⟩ [] ["t"] false "count" 1 0) :=
  ⟨by decide,
    C8_method_dispatch (fun w => w) (fun _ _ => 1) (fun r => r) []
      ⟨[("t", [Cell.str "good"])]⟩ [] ["t"] false 1 0 "bogus" (by decide)⟩

end TextData
